import Mathlib

deriving instance DecidableEq for Except

/-!
Verification of the animation frame pipeline, snapshot cache, playback
engine and tab navigation of the gophetch system monitor (main.go),
shallowly embedded in Lean.  Go strings are modelled as `List Char`,
Go `int` as `Int` or `Nat` where the source values are provably
non-negative, and `float64` event timestamps as rationals (the proved
properties do not depend on rounding).
-/

namespace Gophetch

/-! ## Text model and the control-sequence stripper (processANSISequences) -/

/-- Character class `[0-9;]`, the body of `ansiColorRegex`. -/
def isColorBody (c : Char) : Bool := c.isDigit || c = ';'

/-- Character class `[?0-9;]`, the body of the complex, private and
application regexes. -/
def isComplexBody (c : Char) : Bool := c = '?' || c.isDigit || c = ';'

/-- Character class `[a-zA-Z]`, the final class of `ansiPrivateRegex`. -/
def isAsciiLetter (c : Char) : Bool :=
  ('a' ≤ c && c ≤ 'z') || ('A' ≤ c && c ≤ 'Z')

/-- Final class `[ABCDFGHK]` of `ansiCursorRegex`. -/
def isCursorFinal (c : Char) : Bool :=
  c = 'A' || c = 'B' || c = 'C' || c = 'D' || c = 'F' || c = 'G' || c = 'H' || c = 'K'

/-- Final class `[JK]` of `ansiClearRegex`. -/
def isClearFinal (c : Char) : Bool := c = 'J' || c = 'K'

/-- Final class `[hlnpqr]` of `ansiComplexRegex`. -/
def isComplexFinal (c : Char) : Bool :=
  c = 'h' || c = 'l' || c = 'n' || c = 'p' || c = 'q' || c = 'r'

/-- Final class `[hl]` of `ansiApplicationRegex`. -/
def isAppFinal (c : Char) : Bool := c = 'h' || c = 'l'

/-- Final class `n` of `ansiDeviceRegex`. -/
def isDeviceFinal (c : Char) : Bool := c = 'n'

/-- Final class `m` of `ansiColorRegex`. -/
def isColorFinal (c : Char) : Bool := c = 'm'

/-- Length of the maximal run of characters satisfying `p` at the head. -/
def countLeading (p : Char → Bool) : List Char → Nat
  | [] => 0
  | c :: cs => if p c then countLeading p cs + 1 else 0

/-- Match of a compiled CSI pattern `ESC [ body* fin` at the head of the
list, returning the total match length.  In every pattern of main.go the
body class and the final class are disjoint, so Go's leftmost-first greedy
matching reduces to: take the maximal body run, then require one final
character. -/
def matchCSI (body final : Char → Bool) : List Char → Option Nat
  | '\x1b' :: '[' :: rest =>
      let n := countLeading body rest
      match rest.drop n with
      | c :: _ => if final c then some (n + 3) else none
      | [] => none
  | _ => none

/-- Match of `ansiOSCRegex`, the pattern `ESC ] [0-9]* ; [^\x07]* \x07`,
at the head of the list, returning the total match length. -/
def matchOSC : List Char → Option Nat
  | '\x1b' :: ']' :: rest =>
      let n := countLeading Char.isDigit rest
      match rest.drop n with
      | ';' :: rest2 =>
          let m := countLeading (fun c => c ≠ '\x07') rest2
          match rest2.drop m with
          | '\x07' :: _ => some (n + m + 4)
          | _ => none
      | _ => none
  | _ => none

/-- One `ReplaceAllString(_, "")` pass: scan left to right, delete each
leftmost match, continue scanning after the deleted match (matches never
overlap and are never re-scanned).  The fuel argument is initialised with
the input length, which bounds the number of steps because every step
consumes at least one input character. -/
def runPassFuel (m : List Char → Option Nat) : Nat → List Char → List Char
  | _, [] => []
  | 0, l => l
  | fuel + 1, c :: cs =>
      match m (c :: cs) with
      | some k => runPassFuel m fuel (cs.drop (k - 1))
      | none => c :: runPassFuel m fuel cs

/-- Deletion of every leftmost match of a pattern, as performed by
`regexp.ReplaceAllString(input, "")`. -/
def runPass (m : List Char → Option Nat) (l : List Char) : List Char :=
  runPassFuel m l.length l

/-- The pass `strings.ReplaceAll(result, "\u001b[", "")`: one left-to-right
scan removing each occurrence of the two-character CSI introducer. -/
def removeEscBracket : List Char → List Char
  | '\x1b' :: '[' :: rest => removeEscBracket rest
  | c :: cs => c :: removeEscBracket cs
  | [] => []

/-- The pass `strings.ReplaceAll(result, "\u0007", "")`: removal of every
bell character. -/
def removeBell (l : List Char) : List Char := l.filter (fun c => c ≠ '\x07')

/-- processANSISequences from main.go: the eight compiled-regex deletion
passes in source order, then removal of every remaining `ESC [` pair, then
removal of bell characters. -/
def processANSISequences (input : List Char) : List Char :=
  let r := input
  let r := runPass (matchCSI isColorBody isColorFinal) r
  let r := runPass (matchCSI Char.isDigit isCursorFinal) r
  let r := runPass (matchCSI Char.isDigit isClearFinal) r
  let r := runPass (matchCSI isComplexBody isComplexFinal) r
  let r := runPass matchOSC r
  let r := runPass (matchCSI isComplexBody isAsciiLetter) r
  let r := runPass (matchCSI Char.isDigit isDeviceFinal) r
  let r := runPass (matchCSI isComplexBody isAppFinal) r
  let r := removeEscBracket r
  removeBell r

/-- Input on which idempotence of the stripper fails: deleting the inner
`ESC [` pair makes the leading escape byte and the trailing bracket
adjacent, leaving a fresh CSI introducer in the output. -/
def badStripInput : List Char := ['\x1b', '\x1b', '[', '[']

/-! ## Playback engine (the tickMsg branch of Model.Update) -/

/-- Advance of `m.currentFrame` performed on a `tickMsg` in Model.Update:
with frames loaded, loop mode takes the next index modulo the frame count,
non-loop mode increments until the last frame and then stays. -/
def tickFrame (loopAnimation : Bool) (frameCount currentFrame : Nat) : Nat :=
  if frameCount > 0 then
    if loopAnimation then (currentFrame + 1) % frameCount
    else
      if currentFrame < frameCount - 1 then currentFrame + 1
      else currentFrame
  else currentFrame

/-- Iterated playback ticks: the frame index after `k` ticks starting
from index `i`. -/
def tickIter (loopAnimation : Bool) (frameCount : Nat) : Nat → Nat → Nat
  | 0, i => i
  | k + 1, i => tickIter loopAnimation frameCount k (tickFrame loopAnimation frameCount i)

/-- What the animation panel of Model.renderTabbedView shows. -/
inductive AnimSource
  | frameContent (content : List Char)
  | rain
deriving DecidableEq

/-- Colour tag of a frame, the argument of lipgloss.Color. -/
abbrev ColorTag := String

/-- Frame from main.go: one renderable unit of text plus a colour tag. -/
structure Frame where
  content : List Char
  color : ColorTag
deriving DecidableEq

/-- Default colour tag `lipgloss.Color("252")` used for untagged frames. -/
def defaultColor : ColorTag := "252"

/-- Animation-panel selection in Model.renderTabbedView: with frames
loaded it shows the current frame (falling back to frame 0 when the index
is out of range), otherwise the procedurally generated rain animation. -/
def selectAnimation (frames : List Frame) (currentFrame : Nat) : AnimSource :=
  if h : 0 < frames.length then
    if h2 : currentFrame < frames.length then
      .frameContent (frames.get ⟨currentFrame, h2⟩).content
    else .frameContent (frames.get ⟨0, h⟩).content
  else .rain

/-! ## Tab manager (view scheduler) -/

/-- TabType from main.go. -/
inductive TabType
  | standard
  | network
  | hardware
  | processes
  | weather
deriving DecidableEq

/-- TabManager from main.go, with the tab list modelled by the parallel
`tabTypes` tags (the config and cache fields play no part in navigation). -/
structure TabManager where
  tabs : List TabType
  activeTab : Int
deriving DecidableEq

/-- Go's `%` on int: remainder of truncated division; a zero divisor is a
runtime panic, modelled by `none`. -/
def goIntMod (a b : Int) : Option Int :=
  if b = 0 then none else some (a.tmod b)

/-- NextTab from main.go: `tm.activeTab = (tm.activeTab + 1) % len(tm.tabs)`. -/
def NextTab (tm : TabManager) : Option TabManager :=
  (goIntMod (tm.activeTab + 1) tm.tabs.length).map
    (fun i => { tm with activeTab := i })

/-- PrevTab from main.go:
`tm.activeTab = (tm.activeTab - 1 + len(tm.tabs)) % len(tm.tabs)`. -/
def PrevTab (tm : TabManager) : Option TabManager :=
  (goIntMod (tm.activeTab - 1 + tm.tabs.length) tm.tabs.length).map
    (fun i => { tm with activeTab := i })

/-- SwitchTab from main.go: bounds-checked jump, ignored when out of range. -/
def SwitchTab (tm : TabManager) (index : Int) : TabManager :=
  if 0 ≤ index ∧ index < tm.tabs.length then { tm with activeTab := index }
  else tm

/-- The default five-tab list built by initializeTabs. -/
def defaultTabs : List TabType :=
  [.standard, .network, .hardware, .processes, .weather]

/-! ## Snapshot cache (DataCache)

Times are modelled in seconds as integers; the Go zero `time.Time` held by
`lastUpdate` before any update is modelled by `none` (for it,
`time.Since` exceeds every interval used here, so `sinceExceeds` is true).
The collectors (GetNetworkInfo and friends) are external shell-outs; the
value a completed collector delivers is passed to each update function as
the `fresh` argument. -/

/-- NetworkInfo from main.go.  The cache logic reads only the nil-ness of
IPAddresses (a nil slice is `none`); the remaining fields are payload. -/
structure NetworkInfo where
  ipAddresses : Option (List String)
  bandwidthIn : String
  bandwidthOut : String
  connections : Int
  activePorts : List String
deriving DecidableEq

/-- HardwareInfo from main.go; the cache logic reads only `gpuInfo`. -/
structure HardwareInfo where
  gpuInfo : String
  temperature : String
  fanSpeed : String
  batteryStatus : String
  batteryLevel : String
deriving DecidableEq

/-- ProcessInfo from main.go; the cache logic reads only `totalProcesses`.
The per-process entries are display payload, kept abstract as strings. -/
structure ProcessInfo where
  topProcesses : List String
  totalProcesses : Int
  searchFilter : String
deriving DecidableEq

/-- WeatherInfo from main.go; the cache logic reads only `current`. -/
structure WeatherInfo where
  current : String
  forecast : List String
  location : String
deriving DecidableEq

/-- DataCache from main.go.  Note the single `lastUpdate` timestamp shared
by all four categories. -/
structure DataCache where
  networkInfo : NetworkInfo
  hardwareInfo : HardwareInfo
  processInfo : ProcessInfo
  weatherInfo : WeatherInfo
  lastUpdate : Option Int
  updateInterval : Int
deriving DecidableEq

/-- NewDataCache: zero-valued snapshots, zero time, a 10-second interval. -/
def NewDataCache : DataCache :=
  { networkInfo := { ipAddresses := none, bandwidthIn := "", bandwidthOut := ""
                     connections := 0, activePorts := [] }
    hardwareInfo := { gpuInfo := "", temperature := "", fanSpeed := ""
                      batteryStatus := "", batteryLevel := "" }
    processInfo := { topProcesses := [], totalProcesses := 0, searchFilter := "" }
    weatherInfo := { current := "", forecast := [], location := "" }
    lastUpdate := none
    updateInterval := 10 }

/-- Test `time.Since(lastUpdate) > bound` at the given current time. -/
def sinceExceeds (lastUpdate : Option Int) (now bound : Int) : Bool :=
  match lastUpdate with
  | none => true
  | some t => now - t > bound

/-- ShouldUpdate from main.go:
`time.Since(c.lastUpdate) > c.updateInterval`. -/
def ShouldUpdate (c : DataCache) (now : Int) : Bool :=
  sinceExceeds c.lastUpdate now c.updateInterval

/-- UpdateNetworkInfo from main.go: refresh when stale or uninitialised,
stamping the shared `lastUpdate`; return the stored snapshot. -/
def UpdateNetworkInfo (c : DataCache) (now : Int) (fresh : NetworkInfo) :
    DataCache × NetworkInfo :=
  if ShouldUpdate c now || c.networkInfo.ipAddresses.isNone then
    ({ c with networkInfo := fresh, lastUpdate := some now }, fresh)
  else (c, c.networkInfo)

/-- UpdateHardwareInfo from main.go. -/
def UpdateHardwareInfo (c : DataCache) (now : Int) (fresh : HardwareInfo) :
    DataCache × HardwareInfo :=
  if ShouldUpdate c now || c.hardwareInfo.gpuInfo == "" then
    ({ c with hardwareInfo := fresh, lastUpdate := some now }, fresh)
  else (c, c.hardwareInfo)

/-- UpdateProcessInfo from main.go. -/
def UpdateProcessInfo (c : DataCache) (now : Int) (fresh : ProcessInfo) :
    DataCache × ProcessInfo :=
  if ShouldUpdate c now || c.processInfo.totalProcesses == 0 then
    ({ c with processInfo := fresh, lastUpdate := some now }, fresh)
  else (c, c.processInfo)

/-- UpdateWeatherInfo from main.go: a hard-coded 30-second staleness bound
against the same shared timestamp. -/
def UpdateWeatherInfo (c : DataCache) (now : Int) (fresh : WeatherInfo) :
    DataCache × WeatherInfo :=
  if sinceExceeds c.lastUpdate now 30 || c.weatherInfo.current == "" then
    ({ c with weatherInfo := fresh, lastUpdate := some now }, fresh)
  else (c, c.weatherInfo)

/-- Sample collector result used in concrete cache traces. -/
def netSample : NetworkInfo :=
  { ipAddresses := some ["192.168.0.2"], bandwidthIn := "", bandwidthOut := ""
    connections := 1, activePorts := [] }

/-- Sample collector result used in concrete cache traces. -/
def hwSample : HardwareInfo :=
  { gpuInfo := "gpu0", temperature := "", fanSpeed := ""
    batteryStatus := "", batteryLevel := "" }

/-! ## Delimited-file parser (LoadFramesFromFile)

The scanner loop is embedded over its line sequence (`bufio.Scanner`
delivers the file line by line with newlines stripped); the file-access
preconditions (existence, not-a-directory, non-empty, at most 50 MiB) are
I/O checks outside the loop and outside this embedding. -/

/-- The plain sentinel line. -/
def frameSentinel : List Char := "---FRAME---".toList

/-- The colour-sentinel line head tested by `strings.HasPrefix`. -/
def frameColorHead : List Char := "---FRAME:".toList

/-- Split on every occurrence of a character, as `strings.Split` with a
one-character separator does (n parts for n-1 separators, empty parts
kept). -/
def splitOnChar (sep : Char) : List Char → List (List Char)
  | [] => [[]]
  | c :: cs =>
      let r := splitOnChar sep cs
      if c = sep then [] :: r
      else
        match r with
        | h :: t => (c :: h) :: t
        | [] => [[c]]

/-- strings.Contains for character lists: does the pattern occur as a
contiguous run. -/
def containsSeq (pat : List Char) : List Char → Bool
  | [] => pat.isEmpty
  | c :: cs => pat.isPrefixOf (c :: cs) || containsSeq pat cs

/-- strings.TrimSuffix with suffix `"---"`: drop the suffix once when
present. -/
def trimSuffixDashes (s : List Char) : List Char :=
  if List.isSuffixOf "---".toList s then s.take (s.length - 3) else s

/-- extractColor from main.go: read the colour name between the first
colon and a trailing `---`, resolve it case-insensitively through the
fixed name table, and fall back to the default tag. -/
def extractColor (line : List Char) : ColorTag :=
  if line.contains ':' && containsSeq "---".toList line then
    match splitOnChar ':' line with
    | _ :: p1 :: _ =>
        let name := (trimSuffixDashes p1).map Char.toUpper
        if name = "RED".toList then "196"
        else if name = "GREEN".toList then "82"
        else if name = "BLUE".toList then "39"
        else if name = "YELLOW".toList then "226"
        else if name = "CYAN".toList then "86"
        else if name = "MAGENTA".toList then "213"
        else if name = "WHITE".toList then "252"
        else if name = "BRIGHTBLUE".toList then "75"
        else if name = "BRIGHTGREEN".toList then "118"
        else if name = "BRIGHTRED".toList then "203"
        else "252"
    | _ => "252"
  else "252"

/-- Failures of the two frame parsers that are visible to this embedding. -/
inductive LoadErr
  | tooManyLines
  | noFrames
  | tooManyFrames
  | invalidHeader
deriving DecidableEq

/-- Processing of one scanned line: a plain sentinel cuts the pending
buffer as a default-coloured frame, a colour sentinel cuts it with the
extracted colour (either is ignored on an empty buffer), any other line is
appended with its newline restored. -/
def frameStep (line : List Char) (frames : List Frame) (cur : List Char) :
    List Frame × List Char :=
  if line = frameSentinel then
    if cur.length > 0 then
      (frames ++ [{ content := cur, color := defaultColor }], ([] : List Char))
    else (frames, cur)
  else if frameColorHead.isPrefixOf line then
    if cur.length > 0 then
      (frames ++ [{ content := cur, color := extractColor line }], ([] : List Char))
    else (frames, cur)
  else (frames, cur ++ line ++ ['\n'])

/-- The scanning loop of LoadFramesFromFile: each line is processed by
`frameStep`, and crossing the 100,000-line limit aborts the scan.
Returns the collected frames and the pending buffer. -/
def scanFrameLines :
    List (List Char) → List Frame → List Char → Nat →
    Except LoadErr (List Frame × List Char)
  | [], frames, cur, _ => .ok (frames, cur)
  | line :: rest, frames, cur, lineCount =>
      let st := frameStep line frames cur
      if lineCount + 1 > 100000 then .error .tooManyLines
      else scanFrameLines rest st.1 st.2 (lineCount + 1)

/-- Final checks shared by both parsers: an empty frame list or more than
10,000 frames is a failure. -/
def finishFrames (frames : List Frame) : Except LoadErr (List Frame) :=
  if frames.length = 0 then .error .noFrames
  else if frames.length > 10000 then .error .tooManyFrames
  else .ok frames

/-- LoadFramesFromFile after the file checks: scan all lines, flush a
non-empty pending buffer as the final frame, and fail on an empty result
or on more than 10,000 frames. -/
def loadFramesFromLines (lines : List (List Char)) : Except LoadErr (List Frame) :=
  match scanFrameLines lines [] [] 0 with
  | .error e => .error e
  | .ok (frames, cur) =>
      finishFrames
        (if cur.length > 0 then frames ++ [{ content := cur, color := defaultColor }]
         else frames)

/-! ## Recording-file parser (LoadFramesFromCastFile)

The embedding starts after the same file checks as above.  The header
line's JSON decode is modelled by an `Option CastHeader` (`none` is an
unmarshal failure); each further line is modelled by the outcome of
decoding it as a 3-element `[number, string, string]` array, `none`
covering the three skip cases of the code (undecodable JSON, wrong arity,
wrong element types).  The float64 timestamps are modelled as rationals;
nothing proved here depends on floating-point rounding. -/

/-- CastHeader from main.go. -/
structure CastHeader where
  version : Int
  width : Int
  height : Int
  timestamp : Int
  env : List (String × String)
deriving DecidableEq

/-- One decoded event line: timestamp, event type and data. -/
structure CastEv where
  ts : ℚ
  kind : String
  data : List Char
deriving DecidableEq

/-- Go `len()` of a string built from these characters: its UTF-8 byte
count. -/
def goLen (l : List Char) : Nat := (l.map Char.utf8Size).sum

/-- unicode.IsSpace restricted to the Latin-1 range, which is all
strings.TrimSpace needs here; wider Unicode space classes never meet the
5-byte threshold comparison in a way the proofs below depend on. -/
def isGoSpace (c : Char) : Bool :=
  c = ' ' || c = '\t' || c = '\n' || c = '\x0b' || c = '\x0c' || c = '\r' ||
  c = '\x85' || c = '\xa0'

/-- strings.TrimSpace: drop leading and trailing space characters. -/
def trimSpace (l : List Char) : List Char :=
  ((l.dropWhile isGoSpace).reverse.dropWhile isGoSpace).reverse

/-- The 100 ms resampling interval (`frameInterval := 0.1`). -/
def frameInterval : ℚ := mkRat 1 10

/-- Subtraction of rationals written as the difference of fractions, which
the kernel can evaluate (the library subtraction is sealed); `ratSub_eq`
checks it agrees with the subtraction of `ℚ`. -/
def ratSub (a b : ℚ) : ℚ := mkRat (a.num * b.den - b.num * a.den) (a.den * b.den)

/-- Validation: `ratSub` is subtraction. -/
theorem ratSub_eq (a b : ℚ) : ratSub a b = a - b := by
  have ha : (a.den : ℚ) ≠ 0 := by exact_mod_cast a.den_nz
  have hb : (b.den : ℚ) ≠ 0 := by exact_mod_cast b.den_nz
  rw [ratSub, Rat.mkRat_eq_div]
  conv_rhs => rw [← Rat.num_div_den a, ← Rat.num_div_den b]
  rw [div_sub_div _ _ ha hb]
  push_cast
  ring_nf

/-- Processing of one output event: append its data to the rolling buffer;
when the timestamp gap since the last cut reaches the resampling interval,
strip a non-empty buffer and accept it as a frame only above the 5-byte
trimmed threshold, and advance the cut time. -/
def castStep (e : CastEv) (frames : List Frame) (buf : List Char) (lastTs : ℚ) :
    List Frame × List Char × ℚ :=
  let buf1 := buf ++ e.data
  if ratSub e.ts lastTs ≥ frameInterval then
    if buf1.length > 0 then
      let processed := processANSISequences buf1
      if goLen (trimSpace processed) > 5 then
        (frames ++ [{ content := processed, color := defaultColor }],
         ([] : List Char), e.ts)
      else (frames, ([] : List Char), e.ts)
    else (frames, buf1, e.ts)
  else (frames, buf1, lastTs)

/-- The event loop of LoadFramesFromCastFile: undecodable lines and
non-output events are skipped (their `continue` also skips the line-limit
check); an output event is processed by `castStep`; crossing the
100,000-line limit on a processed output event aborts the scan.  Returns
the frames and the remaining buffer. -/
def scanCastEvents :
    List (Option CastEv) → List Frame → List Char → ℚ → Nat →
    Except LoadErr (List Frame × List Char)
  | [], frames, buf, _, _ => .ok (frames, buf)
  | none :: evs, frames, buf, lastTs, lineCount =>
      scanCastEvents evs frames buf lastTs (lineCount + 1)
  | some e :: evs, frames, buf, lastTs, lineCount =>
      if e.kind ≠ "o" then scanCastEvents evs frames buf lastTs (lineCount + 1)
      else
        let st := castStep e frames buf lastTs
        if lineCount + 1 > 100000 then .error .tooManyLines
        else scanCastEvents evs st.1 st.2.1 st.2.2 (lineCount + 1)

/-- LoadFramesFromCastFile after the file checks: a header that fails to
decode is fatal; then the event loop runs, the remaining buffer is flushed
through the same acceptance test, and an empty result or more than 10,000
frames is a failure. -/
def loadFramesFromCast (hdr : Option CastHeader) (evs : List (Option CastEv)) :
    Except LoadErr (List Frame) :=
  match hdr with
  | none => .error .invalidHeader
  | some _ =>
      match scanCastEvents evs [] [] 0 0 with
      | .error e => .error e
      | .ok (frames, buf) =>
          finishFrames
            (if buf.length > 0 then
              let processed := processANSISequences buf
              if goLen (trimSpace processed) > 5 then
                frames ++ [{ content := processed, color := defaultColor }]
              else frames
             else frames)

/-- The output events of a line list: the decoded events whose kind is
"o", in order. -/
def outputEventsOnly (evs : List (Option CastEv)) : List (Option CastEv) :=
  evs.filter (fun e =>
    match e with
    | some ev => ev.kind == "o"
    | none => false)

/-- Sample header used in concrete recording-parser runs. -/
def hdrSample : CastHeader :=
  { version := 2, width := 80, height := 24, timestamp := 0, env := [] }

/-- Sample event-line list with an undecodable line, an input event and an
output event. -/
def castEvsSample : List (Option CastEv) :=
  [none,
   some { ts := 0, kind := "i", data := "SECRET".toList },
   some { ts := 0, kind := "o", data := "hello, world".toList }]

/-! ## The well-formed delimited file of a block list -/

/-- Text of one block as the scanner accumulates it: each line in order
with its trailing newline restored. -/
def blockText : List (List Char) → List Char
  | [] => []
  | line :: b => line ++ '\n' :: blockText b

/-- The default-coloured frame a block produces. -/
def mkDefaultFrame (b : List (List Char)) : Frame :=
  { content := blockText b, color := defaultColor }

/-- A well-formed delimited file: the blocks' lines separated by single
plain sentinel lines. -/
def joinBlocks : List (List (List Char)) → List (List Char)
  | [] => []
  | [b] => b
  | b :: rest => b ++ frameSentinel :: joinBlocks rest

/-- A content block: non-empty, and none of its lines is a sentinel. -/
def goodBlock (b : List (List Char)) : Prop :=
  b ≠ [] ∧ ∀ line ∈ b, line ≠ frameSentinel ∧ frameColorHead.isPrefixOf line = false

instance (b : List (List Char)) : Decidable (goodBlock b) := by
  unfold goodBlock
  infer_instance

/-- Sample block list used to instantiate the delimited-parser theorem. -/
def sampleBlocks : List (List (List Char)) :=
  [[['a', 'b']], [['c'], ['d']]]

/-! ## Theorems -/

/-- C2 counterexample: on the input `ESC ESC [ [` the stripper leaves the
output `ESC [` — an escape-introducer pair survives, and stripping a
second time removes it, so `strip (strip x) ≠ strip x`. -/
theorem strip_idempotence_cex :
    processANSISequences (processANSISequences badStripInput) ≠
      processANSISequences badStripInput ∧
    '\x1b' ∈ processANSISequences badStripInput := by
  decide

/-- C2 (amended): the control-sequence stripper is a total function that
never fails on malformed or truncated escape sequences, and its output
contains no bell characters; it is not idempotent and its output can
retain escape-introducer bytes, because deleting a CSI introducer can
make a preceding escape byte adjacent to a following bracket. -/
theorem strip_no_bell (input : List Char) :
    '\x07' ∉ processANSISequences input := by
  intro h
  simp only [processANSISequences, removeBell, List.mem_filter] at h
  simp at h

/-- C3: on a non-empty tab list NextTab and PrevTab wrap circularly
(modulo the list length, witnessed by the five-tab wrap from index 4 to
index 0), but on an empty tab list both compute `% 0`, which in Go is a
runtime panic (modelled by `none`) — not the no-op the claim states. -/
theorem tab_navigation_spec :
    NextTab { tabs := [], activeTab := 0 } = none ∧
    PrevTab { tabs := [], activeTab := 0 } = none ∧
    (∀ (tm : TabManager), tm.tabs ≠ [] →
      NextTab tm =
        some { tm with activeTab := (tm.activeTab + 1).tmod tm.tabs.length } ∧
      PrevTab tm =
        some { tm with
               activeTab := (tm.activeTab - 1 + tm.tabs.length).tmod tm.tabs.length }) ∧
    NextTab { tabs := defaultTabs, activeTab := 4 } =
      some { tabs := defaultTabs, activeTab := 0 } := by
  refine ⟨by decide, by decide, ?_, by decide⟩
  intro tm htm
  have hlen0 : tm.tabs.length ≠ 0 := by simpa using htm
  have hlen : (tm.tabs.length : Int) ≠ 0 := by exact_mod_cast hlen0
  constructor
  · simp [NextTab, goIntMod, hlen]
  · simp [PrevTab, goIntMod, hlen]

/-- Closed instance of the non-empty part of the C3 theorem. -/
theorem tab_navigation_spec_witness :
    ([TabType.standard] : List TabType) ≠ [] ∧
    NextTab { tabs := [TabType.standard], activeTab := 0 } =
      some { tabs := [TabType.standard], activeTab :=
               ((0 : Int) + 1).tmod (([TabType.standard] : List TabType).length) } :=
  ⟨by decide,
   (tab_navigation_spec.2.2.1 { tabs := [TabType.standard], activeTab := 0 }
     (by decide)).1⟩

/-- C5: on a tick with frames loaded, loop mode moves the index to
`(index + 1) % count` and non-loop mode increments until `count - 1` and
then stays; with 3 frames the non-loop trace is 0, 1, 2, 2 and the loop
trace of four ticks is 0, 1, 2, 0, 1. -/
theorem playback_tick_spec (n i : Nat) (hn : 0 < n) (hi : i < n) :
    tickFrame true n i = (i + 1) % n ∧
    (i < n - 1 → tickFrame false n i = i + 1) ∧
    (¬ i < n - 1 → tickFrame false n i = n - 1) ∧
    (tickIter false 3 1 0 = 1 ∧ tickIter false 3 2 0 = 2 ∧
     tickIter false 3 3 0 = 2 ∧ tickIter false 3 4 0 = 2) ∧
    (tickIter true 3 1 0 = 1 ∧ tickIter true 3 2 0 = 2 ∧
     tickIter true 3 3 0 = 0 ∧ tickIter true 3 4 0 = 1) := by
  refine ⟨?_, ?_, ?_, by decide, by decide⟩
  · simp [tickFrame, hn]
  · intro h; simp [tickFrame, hn, h]
  · intro h
    simp [tickFrame, hn, h]
    omega

/-- Closed instance of the C5 theorem at 3 frames, index 2. -/
theorem playback_tick_spec_witness :
    0 < 3 ∧ (2 : Nat) < 3 ∧ tickFrame true 3 2 = (2 + 1) % 3 :=
  ⟨by decide, by decide, (playback_tick_spec 3 2 (by decide) (by decide)).1⟩

/-- A single tick keeps the frame index below the frame count. -/
theorem tickFrame_preserves_lt (b : Bool) (n i : Nat) (hn : 0 < n)
    (hi : i < n) : tickFrame b n i < n := by
  unfold tickFrame
  split
  · split
    · exact Nat.mod_lt _ hn
    · split <;> omega
  · omega

/-- Iterated ticks keep the frame index below the frame count. -/
theorem tickIter_lt (b : Bool) (n : Nat) (hn : 0 < n) :
    ∀ k i, i < n → tickIter b n k i < n
  | 0, _, hi => hi
  | k + 1, i, hi => tickIter_lt b n hn k _ (tickFrame_preserves_lt b n i hn hi)

/-- C9: starting from index 0, after any number of ticks the current
index stays strictly below a non-zero frame count, and with no frames
loaded the render path selects the procedural rain animation instead of
indexing. -/
theorem playback_index_invariant (b : Bool) (n k i : Nat) (hn : 0 < n) :
    tickIter b n k 0 < n ∧ selectAnimation [] i = .rain := by
  refine ⟨tickIter_lt b n hn k 0 hn, ?_⟩
  simp [selectAnimation]

/-- Closed instance of the C9 theorem. -/
theorem playback_index_invariant_witness :
    0 < 2 ∧ (tickIter true 2 5 0 < 2 ∧ selectAnimation [] 7 = .rain) :=
  ⟨by decide, playback_index_invariant true 2 5 7 (by decide)⟩

/-- C1 counterexample: network is refreshed at time 0 (stamping the shared
timestamp), hardware refreshes at time 5 (its GPU field is still empty),
and at time 11 the staleness check for the cache — hence for the network
category — is false, though the claim requires it to be true regardless
of other categories' refreshes. -/
theorem cache_ttl_cex :
    (UpdateNetworkInfo NewDataCache 0 netSample).1.lastUpdate = some 0 ∧
    (UpdateHardwareInfo (UpdateNetworkInfo NewDataCache 0 netSample).1
        5 hwSample).1.lastUpdate = some 5 ∧
    ShouldUpdate
      (UpdateHardwareInfo (UpdateNetworkInfo NewDataCache 0 netSample).1
        5 hwSample).1 11 = false := by
  decide

/-- C1 (amended): completing a refresh of one category replaces that
category's snapshot only, leaving the other snapshots unchanged, but
stamps the single last-refresh timestamp shared by all categories; for a
category refreshed at `t0` with ttl 10 s the staleness check is false at
`t0 + 5` and true at `t0 + 11` provided no other category refreshes in
between, while a refresh of another category at `t1` overwrites the
shared timestamp with `t1`. -/
theorem cache_shared_timestamp (c : DataCache) (t0 : Int) (fresh : NetworkInfo)
    (hI : c.updateInterval = 10)
    (hfire : (ShouldUpdate c t0 || c.networkInfo.ipAddresses.isNone) = true) :
    (UpdateNetworkInfo c t0 fresh).1.hardwareInfo = c.hardwareInfo ∧
    (UpdateNetworkInfo c t0 fresh).1.processInfo = c.processInfo ∧
    (UpdateNetworkInfo c t0 fresh).1.weatherInfo = c.weatherInfo ∧
    (UpdateNetworkInfo c t0 fresh).1.lastUpdate = some t0 ∧
    ShouldUpdate (UpdateNetworkInfo c t0 fresh).1 (t0 + 5) = false ∧
    ShouldUpdate (UpdateNetworkInfo c t0 fresh).1 (t0 + 11) = true ∧
    ∀ (t1 : Int) (hw : HardwareInfo),
      (ShouldUpdate (UpdateNetworkInfo c t0 fresh).1 t1 ||
        ((UpdateNetworkInfo c t0 fresh).1.hardwareInfo.gpuInfo == "")) = true →
      (UpdateHardwareInfo (UpdateNetworkInfo c t0 fresh).1 t1 hw).1.lastUpdate
        = some t1 := by
  have hu : UpdateNetworkInfo c t0 fresh =
      ({ c with networkInfo := fresh, lastUpdate := some t0 }, fresh) := by
    simp [UpdateNetworkInfo, hfire]
  refine ⟨by rw [hu], by rw [hu], by rw [hu], by rw [hu], ?_, ?_, ?_⟩
  · rw [hu]
    simp [ShouldUpdate, sinceExceeds, hI]
  · rw [hu]
    simp [ShouldUpdate, sinceExceeds, hI]
  · intro t1 hw h1
    rw [hu] at h1 ⊢
    simp [UpdateHardwareInfo, h1]

/-- A successful run of the shared final checks returns its input, which
is non-empty. -/
theorem finishFrames_ok (gs res : List Frame) (h : finishFrames gs = .ok res) :
    res = gs ∧ 1 ≤ gs.length := by
  unfold finishFrames at h
  split at h
  · simp at h
  · split at h
    · simp at h
    · rename_i h0 _
      refine ⟨by simpa using h.symm, by omega⟩

/-- C6: whenever either parser returns successfully the frame sequence
holds at least one frame — a parse that would produce zero frames fails
instead — and a delimited file holding only sentinel lines yields the
empty-result failure. -/
theorem parsers_reject_empty_result :
    (∀ (lines : List (List Char)) (frames : List Frame),
      loadFramesFromLines lines = .ok frames → 1 ≤ frames.length) ∧
    (∀ (hdr : Option CastHeader) (evs : List (Option CastEv)) (frames : List Frame),
      loadFramesFromCast hdr evs = .ok frames → 1 ≤ frames.length) ∧
    loadFramesFromLines [frameSentinel, frameSentinel] = .error .noFrames := by
  refine ⟨?_, ?_, by decide⟩
  · intro lines frames h
    unfold loadFramesFromLines at h
    cases hs : scanFrameLines lines [] [] 0 with
    | error e => rw [hs] at h; simp at h
    | ok p =>
        obtain ⟨fs, cur⟩ := p
        rw [hs] at h
        simp only at h
        obtain ⟨rfl, hlen⟩ := finishFrames_ok _ frames h
        omega
  · intro hdr evs frames h
    cases hdr with
    | none => simp [loadFramesFromCast] at h
    | some hd =>
        unfold loadFramesFromCast at h
        cases hs : scanCastEvents evs [] [] 0 0 with
        | error e => rw [hs] at h; simp at h
        | ok p =>
            obtain ⟨fs, buf⟩ := p
            rw [hs] at h
            simp only at h
            obtain ⟨rfl, hlen⟩ := finishFrames_ok _ frames h
            omega

/-- Closed instance of the C6 theorem: a one-line delimited file. -/
theorem parsers_reject_empty_result_witness :
    1 ≤ ([{ content := ['a', '\n'], color := defaultColor }] : List Frame).length :=
  parsers_reject_empty_result.1 [['a']]
    [{ content := ['a', '\n'], color := defaultColor }] (by decide)

/-- C8: a header line that fails to decode is fatal to the recording
parser, while any event line that does not decode as a 3-element
(timestamp, kind, data) record is skipped — the scan continues on the
remaining lines, with the line counted, and does not fail there. -/
theorem cast_header_fatal_bad_event_skipped :
    (∀ (evs : List (Option CastEv)),
      loadFramesFromCast none evs = .error .invalidHeader) ∧
    (∀ (evs : List (Option CastEv)) (frames : List Frame) (buf : List Char)
        (lastTs : ℚ) (lineCount : Nat),
      scanCastEvents (none :: evs) frames buf lastTs lineCount =
        scanCastEvents evs frames buf lastTs (lineCount + 1)) :=
  ⟨fun _ => rfl, fun _ _ _ _ _ => rfl⟩

/-- Scanning only the output events of a line list from a no-larger line
count produces the same successful outcome: skipped lines and non-output
events leave the frame state untouched and only ever enlarge the line
count, and a larger count can only make the limit abort earlier. -/
theorem scanCast_filter_outputs (evs : List (Option CastEv)) :
    ∀ (frames : List Frame) (buf : List Char) (lastTs : ℚ) (cnt cnt' : Nat)
      (res : List Frame × List Char), cnt' ≤ cnt →
      scanCastEvents evs frames buf lastTs cnt = .ok res →
      scanCastEvents (outputEventsOnly evs) frames buf lastTs cnt' = .ok res := by
  induction evs with
  | nil =>
      intro frames buf lastTs cnt cnt' res _ h
      simpa [outputEventsOnly, scanCastEvents] using h
  | cons e evs ih =>
      intro frames buf lastTs cnt cnt' res hle h
      cases e with
      | none =>
          rw [show outputEventsOnly (none :: evs) = outputEventsOnly evs from by
            simp [outputEventsOnly]]
          exact ih frames buf lastTs (cnt + 1) cnt' res
            (Nat.le_trans hle (Nat.le_succ _)) h
      | some ev =>
          by_cases hk : ev.kind = "o"
          · rw [show outputEventsOnly (some ev :: evs) =
                  some ev :: outputEventsOnly evs from by
              simp [outputEventsOnly, hk]]
            rw [show scanCastEvents (some ev :: evs) frames buf lastTs cnt =
                  (if cnt + 1 > 100000 then .error .tooManyLines
                   else
                     scanCastEvents evs (castStep ev frames buf lastTs).1
                       (castStep ev frames buf lastTs).2.1
                       (castStep ev frames buf lastTs).2.2 (cnt + 1)) from by
              simp [scanCastEvents, hk]] at h
            split at h
            · simp at h
            · rename_i hcnt
              rw [show scanCastEvents (some ev :: outputEventsOnly evs)
                    frames buf lastTs cnt' =
                    (if cnt' + 1 > 100000 then .error .tooManyLines
                     else
                       scanCastEvents (outputEventsOnly evs)
                         (castStep ev frames buf lastTs).1
                         (castStep ev frames buf lastTs).2.1
                         (castStep ev frames buf lastTs).2.2 (cnt' + 1)) from by
                simp [scanCastEvents, hk]]
              rw [if_neg (by omega)]
              exact ih _ _ _ (cnt + 1) (cnt' + 1) res (by omega) h
          · rw [show outputEventsOnly (some ev :: evs) = outputEventsOnly evs from by
              simp [outputEventsOnly, hk]]
            rw [show scanCastEvents (some ev :: evs) frames buf lastTs cnt =
                  scanCastEvents evs frames buf lastTs (cnt + 1) from by
              simp [scanCastEvents, hk]] at h
            exact ih frames buf lastTs (cnt + 1) cnt' res
              (Nat.le_trans hle (Nat.le_succ _)) h

/-- C7: the frames a successful recording parse emits are exactly the
frames of the parse restricted to its output events — events of any other
kind (and undecodable lines) contribute nothing to any emitted frame's
content. -/
theorem cast_output_events_determine_frames (hdr : CastHeader)
    (evs : List (Option CastEv)) (frames : List Frame)
    (h : loadFramesFromCast (some hdr) evs = .ok frames) :
    loadFramesFromCast (some hdr) (outputEventsOnly evs) = .ok frames := by
  unfold loadFramesFromCast at h ⊢
  cases hs : scanCastEvents evs [] [] 0 0 with
  | error e => rw [hs] at h; simp at h
  | ok p =>
      rw [hs] at h
      rw [scanCast_filter_outputs evs [] [] 0 0 0 p (Nat.le_refl 0) hs]
      exact h

/-- Closed instance of the C7 theorem: an undecodable line and an input
event are dropped without changing the single emitted frame. -/
theorem cast_output_events_determine_frames_witness :
    loadFramesFromCast (some hdrSample) (outputEventsOnly castEvsSample) =
      .ok [{ content := "hello, world".toList, color := defaultColor }] :=
  cast_output_events_determine_frames hdrSample castEvsSample
    [{ content := "hello, world".toList, color := defaultColor }] (by decide)

/-- Closed instance of the C1 amended theorem. -/
theorem cache_shared_timestamp_witness :
    NewDataCache.updateInterval = 10 ∧
    (ShouldUpdate NewDataCache 0 || NewDataCache.networkInfo.ipAddresses.isNone)
      = true ∧
    ShouldUpdate (UpdateNetworkInfo NewDataCache 0 netSample).1 (0 + 11) = true :=
  ⟨rfl, by decide,
   (cache_shared_timestamp NewDataCache 0 netSample rfl (by decide)).2.2.2.2.2.1⟩

/-- A non-empty block accumulates non-empty text. -/
theorem blockText_ne_nil (b : List (List Char)) (hb : b ≠ []) :
    blockText b ≠ [] := by
  cases b with
  | nil => exact absurd rfl hb
  | cons l b => simp [blockText]

/-- Scanning the lines of a sentinel-free block appends its text to the
pending buffer and advances the line count by its length. -/
theorem scanFrameLines_block (b : List (List Char)) :
    ∀ (rest : List (List Char)) (frames : List Frame) (cur : List Char) (cnt : Nat),
      (∀ line ∈ b, line ≠ frameSentinel ∧ frameColorHead.isPrefixOf line = false) →
      cnt + b.length ≤ 100000 →
      scanFrameLines (b ++ rest) frames cur cnt =
        scanFrameLines rest frames (cur ++ blockText b) (cnt + b.length) := by
  induction b with
  | nil =>
      intro rest frames cur cnt _ _
      simp [blockText]
  | cons l b ih =>
      intro rest frames cur cnt hb hcnt
      have hl := hb l (List.mem_cons_self l b)
      have hstep : scanFrameLines ((l :: b) ++ rest) frames cur cnt =
          scanFrameLines (b ++ rest) frames (cur ++ (l ++ ['\n'])) (cnt + 1) := by
        have hlim : ¬ (cnt + 1 > 100000) := by
          simp only [List.length_cons] at hcnt
          omega
        simp [scanFrameLines, frameStep, hl.1, hl.2, hlim, List.append_assoc]
      rw [hstep, ih rest frames (cur ++ (l ++ ['\n'])) (cnt + 1)
        (fun x hx => hb x (List.mem_cons_of_mem l hx))
        (by simp only [List.length_cons] at hcnt; omega)]
      have harg : cur ++ (l ++ ['\n']) ++ blockText b = cur ++ blockText (l :: b) := by
        simp [blockText, List.append_assoc]
      have hcount : cnt + 1 + b.length = cnt + (l :: b).length := by
        simp [List.length_cons]
        omega
      rw [harg, hcount]

/-- A plain sentinel on a non-empty pending buffer cuts it as a
default-coloured frame. -/
theorem scanFrameLines_sentinel (rest : List (List Char)) (frames : List Frame)
    (cur : List Char) (cnt : Nat) (hcur : cur ≠ []) (hcnt : cnt + 1 ≤ 100000) :
    scanFrameLines (frameSentinel :: rest) frames cur cnt =
      scanFrameLines rest
        (frames ++ [{ content := cur, color := defaultColor }]) [] (cnt + 1) := by
  have hpos : cur.length > 0 := List.length_pos.mpr hcur
  have hlim : ¬ (cnt + 1 > 100000) := by omega
  simp [scanFrameLines, frameStep, hpos, hlim]

/-- Scanning a well-formed block file collects one default-coloured frame
per block except the last, whose text is left in the pending buffer. -/
theorem scanFrameLines_joinBlocks (blocks : List (List (List Char))) :
    blocks ≠ [] → (∀ b ∈ blocks, goodBlock b) →
    ∀ (frames : List Frame) (cnt : Nat),
      cnt + (joinBlocks blocks).length ≤ 100000 →
      ∃ pre last, blocks = pre ++ [last] ∧
        scanFrameLines (joinBlocks blocks) frames [] cnt =
          .ok (frames ++ pre.map mkDefaultFrame, blockText last) := by
  induction blocks with
  | nil => intro h; exact absurd rfl h
  | cons b rest ih =>
      intro _ hgood frames cnt hcnt
      have hb : ∀ line ∈ b, line ≠ frameSentinel ∧
          frameColorHead.isPrefixOf line = false :=
        (hgood b (List.mem_cons_self b rest)).2
      cases rest with
      | nil =>
          refine ⟨[], b, rfl, ?_⟩
          have h1 := scanFrameLines_block b [] frames [] cnt hb
            (by simpa [joinBlocks] using hcnt)
          rw [List.append_nil] at h1
          rw [show joinBlocks [b] = b from rfl, h1]
          simp [scanFrameLines]
      | cons b2 rest2 =>
          have hjoin : joinBlocks (b :: b2 :: rest2) =
              b ++ frameSentinel :: joinBlocks (b2 :: rest2) := rfl
          have hlen : (joinBlocks (b :: b2 :: rest2)).length =
              b.length + 1 + (joinBlocks (b2 :: rest2)).length := by
            rw [hjoin]; simp; omega
          rw [hjoin, scanFrameLines_block b _ frames [] cnt hb (by omega)]
          rw [List.nil_append]
          rw [scanFrameLines_sentinel _ _ _ _
            (blockText_ne_nil b (hgood b (List.mem_cons_self b (b2 :: rest2))).1)
            (by omega)]
          obtain ⟨pre, last, hsplit, hscan⟩ :=
            ih (by simp) (fun x hx => hgood x (List.mem_cons_of_mem b hx))
              (frames ++ [{ content := blockText b, color := defaultColor }])
              (cnt + b.length + 1) (by omega)
          refine ⟨b :: pre, last, by rw [List.cons_append, ← hsplit], ?_⟩
          rw [hscan]
          simp [mkDefaultFrame, List.append_assoc]

/-- C4: parsing the well-formed delimited file of any non-empty list of
sentinel-free non-empty blocks (within the line and frame limits) yields
exactly one frame per block, in order, whose content is the block's lines
each with its trailing newline restored. -/
theorem delimited_parser_exact (blocks : List (List (List Char)))
    (hne : blocks ≠ [])
    (hgood : ∀ b ∈ blocks, goodBlock b)
    (hcount : blocks.length ≤ 10000)
    (hlines : (joinBlocks blocks).length ≤ 100000) :
    loadFramesFromLines (joinBlocks blocks) = .ok (blocks.map mkDefaultFrame) := by
  obtain ⟨pre, last, hsplit, hscan⟩ :=
    scanFrameLines_joinBlocks blocks hne hgood [] 0 (by omega)
  have hlast : blockText last ≠ [] := by
    refine blockText_ne_nil last ?_
    have hmem : last ∈ blocks := by
      rw [hsplit]
      exact List.mem_append_right _ (List.mem_singleton.mpr rfl)
    exact (hgood last hmem).1
  unfold loadFramesFromLines
  rw [hscan]
  simp only
  rw [if_pos (List.length_pos.mpr hlast)]
  have hm : ([] : List Frame) ++ pre.map mkDefaultFrame ++
      [{ content := blockText last, color := defaultColor }] =
      blocks.map mkDefaultFrame := by
    rw [hsplit]
    simp [mkDefaultFrame]
  rw [hm]
  unfold finishFrames
  rw [if_neg (by
    simp only [List.length_map]
    intro hz
    exact hne (List.length_eq_zero.mp hz))]
  rw [if_neg (by simp only [List.length_map]; omega)]

/-- Closed instance of the C4 theorem on a two-block file. -/
theorem delimited_parser_exact_witness :
    loadFramesFromLines (joinBlocks sampleBlocks) =
      .ok (sampleBlocks.map mkDefaultFrame) :=
  delimited_parser_exact sampleBlocks (by decide) (by decide) (by decide)
    (by decide)

/-- One line step preserves the shape invariant: every collected frame has
non-empty newline-terminated content, and the pending buffer is empty or
newline-terminated. -/
theorem frameStep_invariant (line : List Char) (frames : List Frame)
    (cur : List Char)
    (hf : ∀ f ∈ frames, f.content ≠ [] ∧ f.content.getLast? = some '\n')
    (hc : cur = [] ∨ cur.getLast? = some '\n') :
    (∀ f ∈ (frameStep line frames cur).1,
        f.content ≠ [] ∧ f.content.getLast? = some '\n') ∧
    ((frameStep line frames cur).2 = [] ∨
      (frameStep line frames cur).2.getLast? = some '\n') := by
  have hcut : ∀ (c : ColorTag), cur.length > 0 →
      ∀ f ∈ frames ++ [{ content := cur, color := c }],
        f.content ≠ [] ∧ f.content.getLast? = some '\n' := by
    intro c hpos f hfm
    rcases List.mem_append.mp hfm with hfm | hfm
    · exact hf f hfm
    · have hfe : f = { content := cur, color := c } := by simpa using hfm
      subst hfe
      have hne : cur ≠ [] := by
        intro hh
        rw [hh] at hpos
        simp at hpos
      exact ⟨hne, hc.resolve_left hne⟩
  unfold frameStep
  split
  · split
    · rename_i hpos
      exact ⟨hcut defaultColor hpos, Or.inl rfl⟩
    · exact ⟨hf, hc⟩
  · split
    · split
      · rename_i hpos
        exact ⟨hcut (extractColor line) hpos, Or.inl rfl⟩
      · exact ⟨hf, hc⟩
    · refine ⟨hf, Or.inr ?_⟩
      rw [show cur ++ line ++ ['\n'] = (cur ++ line) ++ ['\n'] from by
        simp [List.append_assoc]]
      exact List.getLast?_concat _

/-- The shape invariant holds of every successful scan outcome. -/
theorem scanFrameLines_invariant (lines : List (List Char)) :
    ∀ (frames : List Frame) (cur : List Char) (cnt : Nat)
      (res : List Frame × List Char),
      (∀ f ∈ frames, f.content ≠ [] ∧ f.content.getLast? = some '\n') →
      (cur = [] ∨ cur.getLast? = some '\n') →
      scanFrameLines lines frames cur cnt = .ok res →
      (∀ f ∈ res.1, f.content ≠ [] ∧ f.content.getLast? = some '\n') ∧
      (res.2 = [] ∨ res.2.getLast? = some '\n') := by
  induction lines with
  | nil =>
      intro frames cur cnt res hf hc h
      obtain rfl : res = (frames, cur) := by
        simpa [scanFrameLines] using h.symm
      exact ⟨hf, hc⟩
  | cons line rest ih =>
      intro frames cur cnt res hf hc h
      rw [show scanFrameLines (line :: rest) frames cur cnt =
            (if cnt + 1 > 100000 then .error .tooManyLines
             else scanFrameLines rest (frameStep line frames cur).1
               (frameStep line frames cur).2 (cnt + 1)) from rfl] at h
      split at h
      · simp at h
      · have hstep := frameStep_invariant line frames cur hf hc
        exact ih _ _ (cnt + 1) res hstep.1 hstep.2 h

/-- A sentinel line on an empty pending buffer leaves the state unchanged. -/
theorem frameStep_sentinel_empty (line : List Char)
    (hline : line = frameSentinel ∨ frameColorHead.isPrefixOf line = true)
    (frames : List Frame) :
    frameStep line frames [] = (frames, []) := by
  unfold frameStep
  rcases hline with rfl | hpfx
  · simp
  · by_cases heq : line = frameSentinel
    · simp [heq]
    · simp [heq, hpfx]

/-- A run of sentinel lines scanned from an empty pending buffer emits no
frames and only advances the line count. -/
theorem scanFrameLines_sentinel_run (sents : List (List Char)) :
    ∀ (rest : List (List Char)) (frames : List Frame) (cnt : Nat),
      (∀ line ∈ sents,
        line = frameSentinel ∨ frameColorHead.isPrefixOf line = true) →
      cnt + sents.length ≤ 100000 →
      scanFrameLines (sents ++ rest) frames [] cnt =
        scanFrameLines rest frames [] (cnt + sents.length) := by
  induction sents with
  | nil => intro rest frames cnt _ _; simp
  | cons l sents ih =>
      intro rest frames cnt hl hcnt
      have hstep := frameStep_sentinel_empty l (hl l (List.mem_cons_self _ _)) frames
      have hlim : ¬ (cnt + 1 > 100000) := by
        simp only [List.length_cons] at hcnt
        omega
      rw [show scanFrameLines ((l :: sents) ++ rest) frames [] cnt =
            (if cnt + 1 > 100000 then .error .tooManyLines
             else scanFrameLines (sents ++ rest) (frameStep l frames []).1
               (frameStep l frames []).2 (cnt + 1)) from rfl]
      rw [if_neg hlim, hstep]
      rw [ih rest frames (cnt + 1)
        (fun x hx => hl x (List.mem_cons_of_mem _ hx))
        (by simp only [List.length_cons] at hcnt; omega)]
      congr 1
      simp only [List.length_cons]
      omega

/-- C10: every frame of a successful delimited parse has non-empty content
ending in a newline character, and a run of consecutive sentinel lines
(plain or colour-suffixed) scanned on an empty pending buffer emits no
frames — a frame is cut only from a non-empty buffer. -/
theorem delimited_frame_content_shape :
    (∀ (lines : List (List Char)) (frames : List Frame),
      loadFramesFromLines lines = .ok frames →
      ∀ f ∈ frames, f.content ≠ [] ∧ f.content.getLast? = some '\n') ∧
    (∀ (sents rest : List (List Char)) (frames : List Frame) (cnt : Nat),
      (∀ line ∈ sents,
        line = frameSentinel ∨ frameColorHead.isPrefixOf line = true) →
      cnt + sents.length ≤ 100000 →
      scanFrameLines (sents ++ rest) frames [] cnt =
        scanFrameLines rest frames [] (cnt + sents.length)) := by
  constructor
  · intro lines frames h
    unfold loadFramesFromLines at h
    cases hs : scanFrameLines lines [] [] 0 with
    | error e => rw [hs] at h; simp at h
    | ok p =>
        obtain ⟨fs, cur⟩ := p
        rw [hs] at h
        simp only at h
        have hinv := scanFrameLines_invariant lines [] [] 0 (fs, cur)
          (by simp) (Or.inl rfl) hs
        obtain ⟨rfl, _⟩ := finishFrames_ok _ frames h
        by_cases hcur : cur.length > 0
        · rw [if_pos hcur]
          intro f hfm
          rcases List.mem_append.mp hfm with hfm | hfm
          · exact hinv.1 f hfm
          · have hfe : f = { content := cur, color := defaultColor } := by
              simpa using hfm
            subst hfe
            have hne : cur ≠ [] := by
              intro hh
              rw [hh] at hcur
              simp at hcur
            exact ⟨hne, hinv.2.resolve_left hne⟩
        · rw [if_neg hcur]
          exact hinv.1
  · exact fun sents rest frames cnt h1 h2 =>
      scanFrameLines_sentinel_run sents rest frames cnt h1 h2

/-- Closed instance of the C10 theorem on a one-block file. -/
theorem delimited_frame_content_shape_witness :
    ({ content := ['a', '\n'], color := defaultColor } : Frame).content ≠ [] ∧
    ({ content := ['a', '\n'], color := defaultColor } : Frame).content.getLast?
      = some '\n' :=
  delimited_frame_content_shape.1 [['a']]
    [{ content := ['a', '\n'], color := defaultColor }] (by decide)
    { content := ['a', '\n'], color := defaultColor } (by simp)

end Gophetch
